import Mathlib

/-!
Shallow embedding of the streaming response accumulator
`merge_single_response` from `dashscope/utils/message_utils.py`.

The parsed partial-response objects handled by the accumulator are
attribute/dict hybrids produced by the transport layer (their class is not
part of the sources under verification).  Modelled from the spec: every
optional field of a partial response is an explicit `Option` field, and the
duck-typed presence checks of the source (`hasattr`, `'x' in y`) test field
presence, as directed by the specification's data model and design notes.
Python truthiness of each value is modelled by explicit `truthy` functions
(empty string, empty list, empty mapping and `None` are falsy).

Statements that can raise a `TypeError`/`KeyError`/`IndexError` in Python are
modelled in the `Except String` monad; a `.error` result models an exception
propagating out of `merge_single_response`.
-/

namespace MessageUtils

/-- One element of a multimodal content array.  `obj text extra` models a
mapping whose optional `text` entry the accumulator reads and writes, with
`extra` holding the remaining (untouched) entries; `nonDict v` models a list
element that is not a mapping (for example a plain string). -/
inductive Part where
  | obj (text : Option String) (extra : List (String × String)) : Part
  | nonDict (v : String) : Part
deriving DecidableEq, Repr

/-- The value of a `content` field: Python `None`, a plain string, or a
multimodal array of parts. -/
inductive Content where
  | nullc : Content
  | str (s : String) : Content
  | parts (l : List Part) : Content
deriving DecidableEq, Repr

/-- Python truthiness of a content value. -/
def Content.truthy : Content → Bool
  | .nullc => false
  | .str s => s ≠ ""
  | .parts l => l ≠ []

/-- Whether a content value is a multimodal array (Python `isinstance(x, list)`). -/
def Content.isArr : Content → Bool
  | .parts _ => true
  | _ => false

/-- The `function` mapping inside a tool-call descriptor: optional `name` and
`arguments` fragments plus any other entries. -/
structure FunctObj where
  name : Option String := none
  arguments : Option String := none
  extra : List (String × String) := []
deriving DecidableEq, Repr

/-- Python truthiness of the `function` mapping (nonempty dict). -/
def FunctObj.truthy (f : FunctObj) : Bool :=
  f.name.isSome || f.arguments.isSome || f.extra ≠ []

/-- A tool-call descriptor: optional `index`, optional `function` mapping and
the remaining scalar entries (`id`, `type`, ...) as an association list.
A descriptor that is not a mapping, or lacks `index`, is modelled by
`index = none`: the source skips it (line 143) exactly as it skips those. -/
structure ToolCall where
  index : Option Int := none
  function : Option FunctObj := none
  extra : List (String × String) := []
deriving DecidableEq, Repr

/-- The `logprobs` mapping of a choice; only its `content` array is touched by
the accumulator.  `content = none` models an absent `content` key (and an
empty/falsy `logprobs` mapping). -/
structure Logprobs where
  content : Option (List String) := none
deriving DecidableEq, Repr

/-- The `message` mapping of a choice; each field is optional. -/
structure Message where
  role : Option String := none
  content : Option Content := none
  reasoning_content : Option String := none
  tool_calls : Option (List ToolCall) := none
deriving DecidableEq, Repr

/-- Python truthiness of a message (nonempty mapping). -/
def Message.truthy (m : Message) : Bool :=
  m.role.isSome || m.content.isSome || m.reasoning_content.isSome || m.tool_calls.isSome

/-- One choice of a partial response. -/
structure Choice where
  index : Option Int := none
  message : Option Message := none
  finish_reason : Option String := none
  logprobs : Option Logprobs := none
deriving DecidableEq, Repr

/-- The `output` section of a partial response. -/
structure Output where
  text : Option Content := none
  choices : Option (List Choice) := none
deriving DecidableEq, Repr

/-- Python truthiness of the output section (nonempty mapping). -/
def Output.truthy (o : Output) : Bool :=
  o.text.isSome || o.choices.isSome

/-- A parsed partial response.  The `usage` section is opaque to the
accumulator (it is never read or written), so its contents are modelled by an
arbitrary optional string. -/
structure Response where
  output : Option Output := none
  usage : Option String := none
deriving DecidableEq, Repr

/-- The per-choice accumulated state, mirroring the dict initialised at
lines 27-36 / 61-70 of the source. -/
structure AccChoice where
  content : Content := .str ""
  reasoning_content : String := ""
  tool_calls : List ToolCall := []
  logprobs_content : List String := []
  finished : Bool := false
  finish_reason : Option String := none
  all_choices_sent : Bool := false
  role : Option String := none
deriving DecidableEq, Repr

/-- The initial accumulated state of a choice. -/
def initAcc : AccChoice := {}

/-- `accumulated_data` is a Python dict keyed by choice index; an ordered
association list models its insertion-order semantics. -/
abbrev AccData := List (Int × AccChoice)

/-- Dict lookup on the accumulated data. -/
def lookupAcc : AccData → Int → Option AccChoice
  | [], _ => none
  | (j, d) :: rest, i => if j = i then some d else lookupAcc rest i

/-- Dict store on the accumulated data: replace in place if the key exists,
else append (Python dict insertion order). -/
def setAcc : AccData → Int → AccChoice → AccData
  | [], i, v => [(i, v)]
  | (j, d) :: rest, i, v => if j = i then (j, v) :: rest else (j, d) :: setAcc rest i v

/-- `accumulated_data[choice_idx] = {...}` when the key is absent (lines 60-70). -/
def ensureAcc (acc : AccData) (i : Int) : AccData :=
  match lookupAcc acc i with
  | some _ => acc
  | none => acc ++ [(i, initAcc)]

/-- Store into a string-keyed mapping: update in place or append (dict order). -/
def setKey : List (String × String) → String → String → List (String × String)
  | [], k, v => [(k, v)]
  | (k0, v0) :: rest, k, v =>
      if k0 = k then (k0, v) :: rest else (k0, v0) :: setKey rest k v

/-- Python `dict.update`: apply every key/value of `upd` to `base` in order. -/
def updateKeys (base : List (String × String)) : List (String × String) → List (String × String)
  | [] => base
  | (k, v) :: rest => updateKeys (setKey base k v) rest

/-- Read `part['text']`: raises `KeyError` when the key is absent and
`TypeError` when the element is not a mapping. -/
def partGetText : Part → Except String String
  | .obj (some t) _ => .ok t
  | .obj none _ => .error "KeyError: text"
  | .nonDict _ => .error "TypeError: string indices must be integers"

/-- Write `part['text'] = t`: raises `TypeError` when the element is not a
mapping (line 112 of the source has no guard for this). -/
def partSetText : Part → String → Except String Part
  | .obj _ e, t => .ok (.obj (some t) e)
  | .nonDict _, _ => .error "TypeError: item assignment on non-mapping part"

/-- `accumulated[...][i]['text'] += t` (line 108). -/
def accPartAppend (accList : List Part) (i : Nat) (t : String) : Except String (List Part) :=
  match accList[i]? with
  | none => .error "IndexError: list index out of range"
  | some p =>
      match partGetText p with
      | .error e => .error e
      | .ok t0 =>
          match partSetText p (t0 ++ t) with
          | .error e => .error e
          | .ok p' => .ok (accList.set i p')

/-- Lines 104-108: walk the incoming content array, concatenating each
mapping element's nonempty `text` into the accumulated array at the same
position; non-mapping elements and elements without `text` are skipped. -/
def mergePartsGo (accList : List Part) (cur : List Part) (i : Nat) : Except String (List Part) :=
  match cur with
  | [] => .ok accList
  | p :: rest =>
      match (match p with
             | .obj (some t) _ => if t = "" then .ok accList else accPartAppend accList i t
             | _ => .ok accList : Except String (List Part)) with
      | .error e => .error e
      | .ok accList' => mergePartsGo accList' rest (i + 1)

/-- Lines 110-112: write each accumulated part's `text` back into the
incoming array at the same position (only positions present in both). -/
def writeBackGo (accList : List Part) (cur : List Part) (i : Nat) : Except String (List Part) :=
  match cur with
  | [] => .ok []
  | p :: rest =>
      match accList[i]? with
      | some ap =>
          match partGetText ap with
          | .error e => .error e
          | .ok t =>
              match partSetText p t with
              | .error e => .error e
              | .ok p' =>
                  match writeBackGo accList rest (i + 1) with
                  | .error e => .error e
                  | .ok rest' => .ok (p' :: rest')
      | none =>
          match writeBackGo accList rest (i + 1) with
          | .error e => .error e
          | .ok rest' => .ok (p :: rest')

/-- Python `+=` on an accumulated content value (line 39): string
concatenation, or list extension — extending a list by a string appends its
characters as non-mapping elements; mixing string with list raises. -/
def contentAppendPy : Content → Content → Except String Content
  | .str a, .str b => .ok (.str (a ++ b))
  | .str _, _ => .error "TypeError: can only concatenate str to str"
  | .parts l, .str b => .ok (.parts (l ++ b.toList.map fun ch => Part.nonDict (String.singleton ch)))
  | .parts l, .parts m => .ok (.parts (l ++ m))
  | .parts _, .nullc => .error "TypeError: argument of += is not iterable"
  | .nullc, _ => .error "TypeError: unsupported operand for +="

/-- Lines 37-39: accumulate a truthy `output.text` fragment into choice 0's
content. -/
def textAccum (st : AccChoice) (ot : Option Content) : Except String AccChoice :=
  match ot with
  | some t =>
      if t.truthy then
        match contentAppendPy st.content t with
        | .error e => .error e
        | .ok c' => .ok { st with content := c' }
      else .ok st
  | none => .ok st

/-- Lines 84-86: remember a present, nonempty role as the sticky role. -/
def applyRoleSave (st : AccChoice) (m : Message) : AccChoice :=
  match m.role with
  | some r => if r ≠ "" then { st with role := some r } else st
  | none => st

/-- Lines 93-112: accumulate a non-empty array content fragment: coerce the
accumulated value to an array, pad it to the incoming length, merge per-part
text, then write the accumulated text back into the incoming array. -/
def partsAccum (st : AccChoice) (l : List Part) : Except String (AccChoice × Content) :=
  let accList0 := match st.content with | .parts al => al | _ => []
  let accList1 := accList0 ++ List.replicate (l.length - accList0.length) (Part.obj (some "") [])
  match mergePartsGo accList1 l 0 with
  | .error e => .error e
  | .ok accList2 =>
      match writeBackGo accList2 l 0 with
      | .error e => .error e
      | .ok newCur => .ok ({ st with content := .parts accList2 }, Content.parts newCur)

/-- Lines 113-119: accumulate a non-empty string content fragment: an
accumulated array is reset to the empty string first (lines 116-117), then the
fragment is appended. -/
def strAccum (st : AccChoice) (s : String) : Except String (AccChoice × Content) :=
  match st.content with
  | .parts _ => .ok ({ st with content := .str s }, .str s)
  | .str a => .ok ({ st with content := .str (a ++ s) }, .str s)
  | .nullc => .error "TypeError: unsupported operand for +="

/-- Lines 91-119: accumulate one truthy content fragment, returning the new
state and the (write-back mutated) current content value. -/
def contentAccum (st : AccChoice) (cur : Content) : Except String (AccChoice × Content) :=
  if cur.truthy then
    match cur with
    | .parts l => partsAccum st l
    | .str s => strAccum st s
    | .nullc => .ok (st, cur)
  else .ok (st, cur)

/-- Lines 88-127: content accumulation and write-back for one choice. -/
def applyContent (st : AccChoice) (m : Message) : Except String (Message × AccChoice) :=
  match m.content with
  | none => .ok (m, st)
  | some cur =>
      match contentAccum st cur with
      | .error e => .error e
      | .ok res =>
          let st' := res.1
          let curNow := res.2
          let newContent :=
            match st'.content with
            | .parts al =>
                match curNow with
                | .parts cl => Content.parts cl
                | _ => Content.parts al
            | c => c
          .ok ({ m with content := some newContent }, st')

/-- Lines 129-135: reasoning-content accumulation and write-back. -/
def applyReasoning (st : AccChoice) (m : Message) : Message × AccChoice :=
  match m.reasoning_content with
  | none => (m, st)
  | some rc =>
      let st' := if rc ≠ "" then { st with reasoning_content := st.reasoning_content ++ rc } else st
      ({ m with reasoning_content := some st'.reasoning_content }, st')

/-- Lines 142-181: merge one incoming tool-call descriptor into the
accumulated list.  Descriptors without an `index` are skipped; otherwise the
first accumulated descriptor with the same index is updated in place, or the
incoming one is appended. -/
def mergeToolCall (accT : List ToolCall) (cur : ToolCall) : List ToolCall :=
  match cur.index with
  | none => accT
  | some idx =>
      match accT.find? (fun c => c.index = some idx) with
      | none => accT ++ [cur]
      | some ex =>
          let ex1 :=
            match cur.function with
            | some f =>
                if f.truthy then
                  let exf := ex.function.getD {}
                  let exf :=
                    match f.name with
                    | some nm => { exf with name := some (exf.name.getD "" ++ nm) }
                    | none => exf
                  let exf :=
                    match f.arguments with
                    | some a => { exf with arguments := some (exf.arguments.getD "" ++ a) }
                    | none => exf
                  { ex with function := some exf }
                else ex
            | none => ex
          let ex2 :=
            { ex1 with
              index := if idx ≠ 0 then some idx else ex1.index,
              extra := updateKeys ex1.extra (cur.extra.filter fun kv => kv.2 ≠ "") }
          let ex3 :=
            match cur.function with
            | some f =>
                if f.truthy then
                  let exf := ex2.function.getD {}
                  { ex2 with function := some { exf with extra := updateKeys exf.extra (f.extra.filter fun kv => kv.2 ≠ "") } }
                else ex2
            | none => ex2
          accT.map fun c => if c.index = some idx then ex3 else c

/-- Lines 137-184: tool-call accumulation and write-back. -/
def applyToolCalls (st : AccChoice) (m : Message) : Message × AccChoice :=
  match m.tool_calls with
  | none => (m, st)
  | some l =>
      if l = [] then (m, st)
      else
        let st' := { st with tool_calls := l.foldl mergeToolCall st.tool_calls }
        ({ m with tool_calls := some st'.tool_calls }, st')

/-- Lines 186-188: restore the sticky role into a message missing one. -/
def applyRoleRestore (st : AccChoice) (m : Message) : Message :=
  match st.role with
  | some r =>
      if r ≠ "" ∧ (m.role = none ∨ m.role = some "") then { m with role := some r } else m
  | none => m

/-- Python `acc['role'] if acc['role'] else 'assistant'` (lines 76, 250). -/
def roleOr : Option String → String
  | some r => if r = "" then "assistant" else r
  | none => "assistant"

/-- Lines 74-82: message synthesised from accumulated state when the incoming
choice has no (or an empty) message. -/
def synthMessage (st : AccChoice) : Message :=
  { role := some (roleOr st.role),
    content := some st.content,
    reasoning_content := if st.reasoning_content ≠ "" then some st.reasoning_content else none,
    tool_calls := if st.tool_calls ≠ [] then some st.tool_calls else none }

/-- Lines 72-188: full message handling for one choice. -/
def applyMessage (st : AccChoice) (mo : Option Message) : Except String (Message × AccChoice) :=
  match mo with
  | none => .ok (synthMessage st, st)
  | some m =>
      if m.truthy then
        match applyContent (applyRoleSave st m) m with
        | .error e => .error e
        | .ok (m1, st2) =>
            let p2 := applyReasoning st2 m1
            let p3 := applyToolCalls p2.2 p2.1
            .ok (applyRoleRestore p3.2 p3.1, p3.2)
      else .ok (synthMessage st, st)

/-- Lines 190-206: append the chunk's logprobs content to the accumulated
sequence. -/
def applyLogprobsAcc (st : AccChoice) (c : Choice) : AccChoice :=
  match c.logprobs with
  | some lp =>
      match lp.content with
      | some lc => if lc ≠ [] then { st with logprobs_content := st.logprobs_content ++ lc } else st
      | none => st
  | none => st

/-- Lines 208-212: write the accumulated logprobs back into the choice. -/
def applyLogprobsWrite (st : AccChoice) (c : Choice) : Choice :=
  if st.logprobs_content ≠ [] then
    match c.logprobs with
    | some lp =>
        if lp.content.isSome then { c with logprobs := some { lp with content := some st.logprobs_content } } else c
    | none => c
  else c

/-- A present, nonempty finish_reason different from the string sentinel
`"null"` (the guard of lines 215-217 and 230-232). -/
def hasRealFr (c : Choice) : Bool :=
  match c.finish_reason with
  | some fr => fr ≠ "" && fr ≠ "null"
  | none => false

/-- Lines 214-220: record a real finish_reason and mark the choice finished. -/
def applyFinish (n : Int) (st : AccChoice) (c : Choice) : AccChoice :=
  if n > 1 ∧ hasRealFr c then { st with finish_reason := c.finish_reason, finished := true } else st

/-- Lines 52-220: process one choice of the incoming chunk. -/
def mergeChoice (n : Int) (enumIdx : Nat) (c : Choice) (acc : AccData) : Except String (Choice × AccData) :=
  let idx : Int := match c.index with | some i => i | none => (enumIdx : Int)
  let acc1 := ensureAcc acc idx
  let st := (lookupAcc acc1 idx).getD initAcc
  match applyMessage st c.message with
  | .error e => .error e
  | .ok (m, st1) =>
      let c1 := { c with message := some m }
      let st2 := applyLogprobsAcc st1 c1
      let c2 := applyLogprobsWrite st2 c1
      let st3 := applyFinish n st2 c2
      .ok (c2, setAcc acc1 idx st3)

/-- The for-loop of line 52, threading the accumulated data. -/
def processChoicesGo (n : Int) (cs : List Choice) (acc : AccData) (i : Nat) : Except String (List Choice × AccData) :=
  match cs with
  | [] => .ok ([], acc)
  | c :: rest =>
      match mergeChoice n i c acc with
      | .error e => .error e
      | .ok (c', acc') =>
          match processChoicesGo n rest acc' (i + 1) with
          | .error e => .error e
          | .ok (rest', acc'') => .ok (c' :: rest', acc'')

/-- Line 16: some accumulated choice already has `all_choices_sent`. -/
def anyAllSent (acc : AccData) : Bool :=
  acc.any fun p => p.2.all_choices_sent

/-- Lines 224-225: how many accumulated choices are marked finished. -/
def countFinished (acc : AccData) : Nat :=
  (acc.filter fun p => p.2.finished).length

/-- Lines 229-233: mask a real finish_reason to the string sentinel `"null"`. -/
def maskChoiceFr (c : Choice) : Choice :=
  if hasRealFr c then { c with finish_reason := some "null" } else c

/-- Lines 236-237: mark every accumulated choice as sent. -/
def markAllSent (acc : AccData) : AccData :=
  acc.map fun p => (p.1, { p.2 with all_choices_sent := true })

/-- Lines 241-269: the synthesized final entry for one accumulated choice. -/
def synthFinal (i : Int) (d : AccChoice) : Choice :=
  { index := some i,
    finish_reason := d.finish_reason,
    message := some
      { role := some (roleOr d.role),
        content := if d.content.truthy then some d.content else none,
        reasoning_content := if d.reasoning_content ≠ "" then some d.reasoning_content else none,
        tool_calls := if d.tool_calls ≠ [] then some d.tool_calls else none },
    logprobs := if d.logprobs_content ≠ [] then some { content := some d.logprobs_content } else none }

/-- An absent, `None` or empty `choices` field (line 24). -/
def choicesFalsy : Option (List Choice) → Bool
  | none => true
  | some l => l = []

/-- The result of a call: the returned emit/suppress boolean, the (possibly
mutated) partial response, and the (possibly mutated) accumulated data. -/
structure MergeResult where
  emit : Bool
  resp : Response
  acc : AccData
deriving DecidableEq, Repr

/-- The accumulator `merge_single_response(parsed_response, accumulated_data, n)`
of `dashscope/utils/message_utils.py`, as a pure state-passing function.
A `.error` result models a Python exception escaping the call. -/
def merge_single_response (resp : Response) (acc : AccData) (n : Int) : Except String MergeResult :=
  -- lines 14-19: early suppression for the multi-choice case
  if n > 1 ∧ acc ≠ [] ∧ anyAllSent acc then .ok ⟨false, resp, acc⟩
  else
    match resp.output with
    | none => .ok ⟨true, resp, acc⟩
    | some o =>
        -- lines 21-42: output.text accumulation when choices is null/empty
        if o.truthy ∧ o.text.isSome ∧ choicesFalsy o.choices then
          let acc1 := ensureAcc acc 0
          let st := (lookupAcc acc1 0).getD initAcc
          match textAccum st o.text with
          | .error e => .error e
          | .ok st' =>
              .ok ⟨true, { resp with output := some { o with text := some st'.content } }, setAcc acc1 0 st'⟩
        else
          -- lines 44-272: per-choice processing
          if o.truthy ∧ ¬ choicesFalsy o.choices then
            match o.choices with
            | some cs =>
                if cs = [] then .ok ⟨false, resp, acc⟩
                else
                  match processChoicesGo n cs acc 0 with
                  | .error e => .error e
                  | .ok (cs', acc') =>
                  if n > 1 then
                    if (countFinished acc' : Int) < n then
                      .ok ⟨true, { resp with output := some { o with choices := some (cs'.map maskChoiceFr) } }, acc'⟩
                    else
                      let acc'' := markAllSent acc'
                      .ok ⟨true, { resp with output := some { o with choices := some (acc''.map fun p => synthFinal p.1 p.2) } }, acc''⟩
                  else
                    .ok ⟨true, { resp with output := some { o with choices := some cs' } }, acc'⟩
            | none => .ok ⟨true, resp, acc⟩
          else .ok ⟨true, resp, acc⟩

/-- Run the accumulator over a whole stream of chunks, collecting each call's
result (line 13's contract, iterated by the transport loop). -/
def mergeTrace (n : Int) (chunks : List Response) (acc : AccData) : Except String (List MergeResult) :=
  match chunks with
  | [] => .ok []
  | r :: rest =>
      match merge_single_response r acc n with
      | .error e => .error e
      | .ok res =>
          match mergeTrace n rest res.acc with
          | .error e => .error e
          | .ok tl => .ok (res :: tl)

/-! Concrete chunk families and projections used to state the claims. -/

/-- A chunk with a single choice that carries only a content fragment. -/
def contentChunk (c : Content) : Response :=
  { output := some
      { text := none,
        choices := some
          [{ index := none,
             message := some { role := none, content := some c, reasoning_content := none, tool_calls := none },
             finish_reason := none, logprobs := none }] },
    usage := none }

/-- A chunk in undifferentiated-text mode: an `output.text` fragment and a
null or empty `choices` field. -/
def textChunk (ch : Option (List Choice)) (f : String) : Response :=
  { output := some { text := some (.str f), choices := ch }, usage := none }

/-- A chunk with a single choice (index 0) carrying only a finish_reason. -/
def frChunk (fr : Option String) : Response :=
  { output := some
      { text := none,
        choices := some [{ index := some 0, message := none, finish_reason := fr, logprobs := none }] },
    usage := none }

/-- A chunk with a single choice carrying only a tool-call descriptor. -/
def toolChunk (tc : ToolCall) : Response :=
  { output := some
      { text := none,
        choices := some
          [{ index := none,
             message := some { role := none, content := none, reasoning_content := none, tool_calls := some [tc] },
             finish_reason := none, logprobs := none }] },
    usage := none }

/-- A tool-call descriptor with index `i`, `function.name`/`function.arguments`
fragments, one other `function.*` field `k := v` and one other top-level
field `kt := w`. -/
def mkTc (i : Int) (nm a k v kt w : String) : ToolCall :=
  { index := some i,
    function := some { name := some nm, arguments := some a, extra := [(k, v)] },
    extra := [(kt, w)] }

/-- Accumulated state whose content is the plain string `a` (all other fields
at their initial values). -/
def strAcc (a : String) : AccChoice := { content := .str a }

/-- Concatenation of a list of fragments. -/
def concatAll (l : List String) : String := l.foldl (fun x y => x ++ y) ""

/-- The expected per-chunk results of a fragment stream: starting from
accumulated string `a`, each fragment `f` yields `B` applied to the running
concatenation. -/
def traceFromBy (B : String → MergeResult) : String → List String → List MergeResult
  | _, [] => []
  | a, f :: rest => B (a ++ f) :: traceFromBy B (a ++ f) rest

/-- Expected result of one content-fragment chunk once the accumulated string
is `t`: emitted, the outgoing choice's message.content is the full string `t`,
and the accumulated state holds `t`. -/
def contentStep (t : String) : MergeResult :=
  ⟨true, contentChunk (.str t), [(0, strAcc t)]⟩

/-- Expected result of one text-mode chunk once the accumulated string is `t`:
emitted, outgoing `output.text` is the full string `t`, choices untouched, and
the accumulated state holds `t`. -/
def textStep (ch : Option (List Choice)) (t : String) : MergeResult :=
  ⟨true, textChunk ch t, [(0, strAcc t)]⟩

/-- The finish_reason of the first outgoing choice (outer `none` when the
response has no choices). -/
def firstChoiceFr (r : Response) : Option (Option String) :=
  match r.output with
  | some o =>
      match o.choices with
      | some (c :: _) => some c.finish_reason
      | _ => none
  | none => none

/-- The message content of the first outgoing choice. -/
def firstChoiceContent (r : Response) : Option (Option Content) :=
  match r.output with
  | some o =>
      match o.choices with
      | some (c :: _) =>
          match c.message with
          | some m => some m.content
          | none => none
      | _ => none
  | none => none

/-- The message tool_calls of the first outgoing choice. -/
def firstChoiceToolCalls (r : Response) : Option (Option (List ToolCall)) :=
  match r.output with
  | some o =>
      match o.choices with
      | some (c :: _) =>
          match c.message with
          | some m => some m.tool_calls
          | none => none
      | _ => none
  | none => none

deriving instance DecidableEq for Except

/-! ### Helper lemmas -/

theorem lookupAcc_setAcc_self (a : AccData) (j : Int) (v : AccChoice) :
    lookupAcc (setAcc a j v) j = some v := by
  induction a with
  | nil => simp [setAcc, lookupAcc]
  | cons p rest ih =>
      obtain ⟨k, d⟩ := p
      by_cases hk : k = j
      · simp [setAcc, lookupAcc, hk]
      · simp [setAcc, lookupAcc, hk, ih]

theorem lookupAcc_setAcc_ne (a : AccData) (i j : Int) (v : AccChoice) (h : j ≠ i) :
    lookupAcc (setAcc a j v) i = lookupAcc a i := by
  induction a with
  | nil => simp [setAcc, lookupAcc, h]
  | cons p rest ih =>
      obtain ⟨k, d⟩ := p
      by_cases hk : k = j
      · subst hk; simp [setAcc, lookupAcc, h]
      · simp [setAcc, lookupAcc, hk, ih]

theorem lookupAcc_append_some (a b : AccData) (i : Int) (d : AccChoice)
    (h : lookupAcc a i = some d) : lookupAcc (a ++ b) i = some d := by
  induction a with
  | nil => simp [lookupAcc] at h
  | cons p rest ih =>
      obtain ⟨k, e⟩ := p
      by_cases hk : k = i
      · simp [lookupAcc, hk] at h ⊢; exact h
      · simp [lookupAcc, hk] at h ⊢; exact ih h

theorem lookupAcc_append_none (a b : AccData) (i : Int)
    (h : lookupAcc a i = none) : lookupAcc (a ++ b) i = lookupAcc b i := by
  induction a with
  | nil => simp [lookupAcc]
  | cons p rest ih =>
      obtain ⟨k, e⟩ := p
      by_cases hk : k = i
      · simp [lookupAcc, hk] at h
      · simp [lookupAcc, hk] at h ⊢; exact ih h

theorem lookupAcc_ensure_of_some (acc : AccData) (i j : Int) (d : AccChoice)
    (h : lookupAcc acc i = some d) : lookupAcc (ensureAcc acc j) i = some d := by
  unfold ensureAcc
  cases hj : lookupAcc acc j with
  | some _ => exact h
  | none => exact lookupAcc_append_some _ _ _ _ h

theorem lookupAcc_ensure_self (acc : AccData) (j : Int) :
    lookupAcc (ensureAcc acc j) j = some ((lookupAcc acc j).getD initAcc) := by
  unfold ensureAcc
  cases hj : lookupAcc acc j with
  | some d => simp [hj]
  | none => simp [lookupAcc_append_none _ _ _ hj, lookupAcc]

theorem lookupAcc_markAllSent (a : AccData) (i : Int) :
    lookupAcc (markAllSent a) i =
      (lookupAcc a i).map fun d => { d with all_choices_sent := true } := by
  induction a with
  | nil => simp [markAllSent, lookupAcc]
  | cons p rest ih =>
      obtain ⟨k, e⟩ := p
      by_cases hk : k = i
      · simp [markAllSent, lookupAcc, hk]
      · simp [markAllSent, lookupAcc, hk]
        simpa [markAllSent] using ih

theorem hasRealFr_isSome (c : Choice) (h : hasRealFr c = true) :
    c.finish_reason.isSome = true := by
  unfold hasRealFr at h
  cases hc : c.finish_reason with
  | some fr => simp
  | none => simp [hc] at h

theorem maskChoiceFr_no_real (c : Choice) : hasRealFr (maskChoiceFr c) = false := by
  unfold maskChoiceFr
  by_cases h : hasRealFr c = true
  · rw [if_pos h]; simp [hasRealFr]
  · rw [if_neg h]; simpa using h

theorem applyRoleSave_state (st : AccChoice) (m : Message) :
    ∃ x, applyRoleSave st m = { st with role := x } := by
  unfold applyRoleSave
  split
  · split
    · exact ⟨_, rfl⟩
    · exact ⟨st.role, rfl⟩
  · exact ⟨st.role, rfl⟩

theorem partsAccum_state (st : AccChoice) (l : List Part) (res : AccChoice × Content)
    (h : partsAccum st l = .ok res) : ∃ x, res.1 = { st with content := x } := by
  unfold partsAccum at h
  simp only [] at h
  split at h
  · exact Except.noConfusion h
  · split at h
    · exact Except.noConfusion h
    · simp only [Except.ok.injEq] at h; subst h; exact ⟨_, rfl⟩

theorem strAccum_state (st : AccChoice) (s : String) (res : AccChoice × Content)
    (h : strAccum st s = .ok res) : ∃ x, res.1 = { st with content := x } := by
  unfold strAccum at h
  split at h
  · simp only [Except.ok.injEq] at h; subst h; exact ⟨_, rfl⟩
  · simp only [Except.ok.injEq] at h; subst h; exact ⟨_, rfl⟩
  · exact Except.noConfusion h

theorem contentAccum_state (st : AccChoice) (cur : Content) (res : AccChoice × Content)
    (h : contentAccum st cur = .ok res) : ∃ x, res.1 = { st with content := x } := by
  unfold contentAccum at h
  split at h
  · split at h
    · exact partsAccum_state _ _ _ h
    · exact strAccum_state _ _ _ h
    · simp only [Except.ok.injEq] at h; subst h; exact ⟨st.content, rfl⟩
  · simp only [Except.ok.injEq] at h; subst h; exact ⟨st.content, rfl⟩

theorem applyContent_state (st : AccChoice) (m m' : Message) (st' : AccChoice)
    (h : applyContent st m = .ok (m', st')) : ∃ x, st' = { st with content := x } := by
  unfold applyContent at h
  split at h
  · simp only [Except.ok.injEq, Prod.mk.injEq] at h
    exact ⟨st.content, by rw [← h.2]⟩
  · rename_i cur hcur
    rcases hca : contentAccum st cur with e | res
    · rw [hca] at h; exact Except.noConfusion h
    · rw [hca] at h
      simp only [Except.ok.injEq, Prod.mk.injEq] at h
      obtain ⟨x, hx⟩ := contentAccum_state st cur res hca
      exact ⟨x, by rw [← h.2, hx]⟩

theorem applyReasoning_state (st : AccChoice) (m : Message) :
    ∃ x, (applyReasoning st m).2 = { st with reasoning_content := x } := by
  unfold applyReasoning
  split
  · exact ⟨st.reasoning_content, rfl⟩
  · split
    · exact ⟨_, rfl⟩
    · exact ⟨st.reasoning_content, rfl⟩

theorem applyToolCalls_state (st : AccChoice) (m : Message) :
    ∃ x, (applyToolCalls st m).2 = { st with tool_calls := x } := by
  unfold applyToolCalls
  split
  · exact ⟨st.tool_calls, rfl⟩
  · split
    · exact ⟨st.tool_calls, rfl⟩
    · exact ⟨_, rfl⟩

theorem applyMessage_state (st : AccChoice) (mo : Option Message) (m' : Message)
    (st' : AccChoice) (h : applyMessage st mo = .ok (m', st')) :
    st'.finish_reason = st.finish_reason ∧ st'.finished = st.finished ∧
      st'.all_choices_sent = st.all_choices_sent ∧
      st'.logprobs_content = st.logprobs_content := by
  unfold applyMessage at h
  split at h
  · simp only [Except.ok.injEq, Prod.mk.injEq] at h
    rw [← h.2]; exact ⟨rfl, rfl, rfl, rfl⟩
  · split at h
    · rename_i m _
      rcases hac : applyContent (applyRoleSave st m) m with e | ⟨m1, st2⟩
      · rw [hac] at h; exact Except.noConfusion h
      · rw [hac] at h
        simp only [Except.ok.injEq, Prod.mk.injEq] at h
        obtain ⟨x1, hx1⟩ := applyRoleSave_state st m
        obtain ⟨x2, hx2⟩ := applyContent_state _ _ _ _ hac
        obtain ⟨x3, hx3⟩ := applyReasoning_state st2 m1
        obtain ⟨x4, hx4⟩ := applyToolCalls_state (applyReasoning st2 m1).2 (applyReasoning st2 m1).1
        rw [← h.2, hx4, hx3, hx2, hx1]
        exact ⟨rfl, rfl, rfl, rfl⟩
    · simp only [Except.ok.injEq, Prod.mk.injEq] at h
      rw [← h.2]; exact ⟨rfl, rfl, rfl, rfl⟩

theorem applyLogprobsAcc_state (st : AccChoice) (c : Choice) :
    ∃ x, applyLogprobsAcc st c = { st with logprobs_content := x } := by
  unfold applyLogprobsAcc
  split
  · split
    · split
      · exact ⟨_, rfl⟩
      · exact ⟨st.logprobs_content, rfl⟩
    · exact ⟨st.logprobs_content, rfl⟩
  · exact ⟨st.logprobs_content, rfl⟩

theorem applyLogprobsWrite_fr (st : AccChoice) (c : Choice) :
    (applyLogprobsWrite st c).finish_reason = c.finish_reason := by
  unfold applyLogprobsWrite
  split
  · split
    · split <;> rfl
    · rfl
  · rfl

theorem applyFinish_fr (n : Int) (st : AccChoice) (c : Choice) :
    (applyFinish n st c).finish_reason = st.finish_reason ∨
      (hasRealFr c = true ∧ (applyFinish n st c).finish_reason = c.finish_reason) := by
  unfold applyFinish
  split
  · rename_i hcond; exact Or.inr ⟨hcond.2, rfl⟩
  · exact Or.inl rfl

theorem hasRealFr_of_fr_eq (c c' : Choice) (h : c'.finish_reason = c.finish_reason) :
    hasRealFr c' = hasRealFr c := by
  unfold hasRealFr
  rw [h]

theorem mergeChoice_fr (n : Int) (e : Nat) (c : Choice) (acc : AccData)
    (c' : Choice) (acc' : AccData) (h : mergeChoice n e c acc = .ok (c', acc'))
    (i : Int) (d : AccChoice) (hl : lookupAcc acc i = some d) :
    ∃ d', lookupAcc acc' i = some d' ∧
      (d'.finish_reason = d.finish_reason ∨
        (hasRealFr c = true ∧ d'.finish_reason = c.finish_reason)) := by
  unfold mergeChoice at h
  simp only [] at h
  rcases ham : applyMessage ((lookupAcc (ensureAcc acc
      (match c.index with | some j => j | none => (e : Int)))
      (match c.index with | some j => j | none => (e : Int))).getD initAcc) c.message
    with er | ⟨m, st1⟩
  · rw [ham] at h; exact Except.noConfusion h
  · rw [ham] at h
    simp only [Except.ok.injEq, Prod.mk.injEq] at h
    set idx : Int := (match c.index with | some j => j | none => (e : Int)) with hidx
    by_cases hii : idx = i
    · subst hii
      have hens : lookupAcc (ensureAcc acc idx) idx = some d := lookupAcc_ensure_of_some _ _ _ _ hl
      rw [hens] at ham
      simp only [Option.getD_some] at ham
      obtain ⟨hfr1, _, _, _⟩ := applyMessage_state _ _ _ _ ham
      obtain ⟨x2, hx2⟩ := applyLogprobsAcc_state st1 { c with message := some m }
      refine ⟨applyFinish n (applyLogprobsAcc st1 { c with message := some m })
          (applyLogprobsWrite (applyLogprobsAcc st1 { c with message := some m })
            { c with message := some m }), ?_, ?_⟩
      · rw [← h.2]; exact lookupAcc_setAcc_self _ _ _
      · have hc2fr : (applyLogprobsWrite (applyLogprobsAcc st1 { c with message := some m })
            { c with message := some m }).finish_reason = c.finish_reason := by
          rw [applyLogprobsWrite_fr]
        rcases applyFinish_fr n (applyLogprobsAcc st1 { c with message := some m })
            (applyLogprobsWrite (applyLogprobsAcc st1 { c with message := some m })
              { c with message := some m }) with hleft | ⟨hreal, hright⟩
        · left
          rw [hleft, hx2]
          simpa using hfr1
        · right
          refine ⟨?_, by rw [hright, hc2fr]⟩
          rw [hasRealFr_of_fr_eq _ _ hc2fr] at hreal
          exact hreal
    · refine ⟨d, ?_, Or.inl rfl⟩
      rw [← h.2, lookupAcc_setAcc_ne _ _ _ _ hii]
      exact lookupAcc_ensure_of_some _ _ _ _ hl

theorem processChoices_fr (n : Int) (cs : List Choice) :
    ∀ (acc : AccData) (k : Nat) (cs' : List Choice) (acc' : AccData),
      processChoicesGo n cs acc k = .ok (cs', acc') → ∀ i d, lookupAcc acc i = some d →
      ∃ d', lookupAcc acc' i = some d' ∧
        (d'.finish_reason = d.finish_reason ∨
          ∃ c ∈ cs, hasRealFr c = true ∧ d'.finish_reason = c.finish_reason) := by
  induction cs with
  | nil =>
      intro acc k cs' acc' h i d hl
      unfold processChoicesGo at h
      simp only [Except.ok.injEq, Prod.mk.injEq] at h
      exact ⟨d, by rw [← h.2]; exact hl, Or.inl rfl⟩
  | cons c rest ih =>
      intro acc k cs' acc' h i d hl
      unfold processChoicesGo at h
      rcases hmc : mergeChoice n k c acc with er | ⟨c1, acc1⟩
      · rw [hmc] at h; exact Except.noConfusion h
      · simp only [hmc] at h
        rcases hpr : processChoicesGo n rest acc1 (k + 1) with er | ⟨rest', acc2⟩
        · simp only [hpr] at h; exact Except.noConfusion h
        · simp only [hpr] at h
          simp only [Except.ok.injEq, Prod.mk.injEq] at h
          obtain ⟨d1, hd1, hcase1⟩ := mergeChoice_fr n k c acc c1 acc1 hmc i d hl
          obtain ⟨d2, hd2, hcase2⟩ := ih acc1 (k + 1) rest' acc2 hpr i d1 hd1
          refine ⟨d2, by rw [← h.2]; exact hd2, ?_⟩
          rcases hcase2 with h2 | ⟨c2, hc2, hreal2, hfr2⟩
          · rcases hcase1 with h1 | ⟨hreal1, hfr1⟩
            · exact Or.inl (h2.trans h1)
            · exact Or.inr ⟨c, List.mem_cons_self c rest, hreal1, h2.trans hfr1⟩
          · exact Or.inr ⟨c2, List.mem_cons_of_mem c hc2, hreal2, hfr2⟩

theorem textAccum_state (st : AccChoice) (ot : Option Content) (st' : AccChoice)
    (h : textAccum st ot = .ok st') : ∃ x, st' = { st with content := x } := by
  unfold textAccum at h
  split at h
  · split at h
    · split at h
      · exact Except.noConfusion h
      · simp only [Except.ok.injEq] at h; subst h; exact ⟨_, rfl⟩
    · simp only [Except.ok.injEq] at h; subst h; exact ⟨st.content, rfl⟩
  · simp only [Except.ok.injEq] at h; subst h; exact ⟨st.content, rfl⟩

theorem applyRoleRestore_content (st : AccChoice) (m : Message) :
    (applyRoleRestore st m).content = m.content := by
  unfold applyRoleRestore
  split
  · split <;> rfl
  · rfl

theorem concatAll_foldl (l : List String) (a : String) :
    l.foldl (fun x y => x ++ y) a = a ++ concatAll l := by
  induction l generalizing a with
  | nil => simp [concatAll, String.append_empty]
  | cons f rest ih =>
      simp only [List.foldl_cons, concatAll] at *
      rw [ih (a ++ f), ih ("" ++ f), String.empty_append, String.append_assoc]

theorem concatAll_cons (f : String) (l : List String) :
    concatAll (f :: l) = f ++ concatAll l := by
  simp only [concatAll, List.foldl_cons]
  rw [concatAll_foldl, String.empty_append]
  rfl

/-- One content-fragment chunk appends the fragment to the accumulated string
and emits the full concatenation. -/
theorem content_step (f a : String) :
    merge_single_response (contentChunk (.str f)) [(0, strAcc a)] 1 =
      .ok (contentStep (a ++ f)) := by
  by_cases hf : f = ""
  · subst hf
    simp [merge_single_response, contentChunk, contentStep, anyAllSent, Output.truthy,
      choicesFalsy, processChoicesGo, mergeChoice, ensureAcc, lookupAcc, setAcc,
      applyMessage, Message.truthy, applyRoleSave, applyContent, contentAccum, partsAccum, strAccum, Content.truthy,
      applyReasoning, applyToolCalls, applyRoleRestore, applyLogprobsAcc,
      applyLogprobsWrite, applyFinish, strAcc, String.append_empty]
  · simp [merge_single_response, contentChunk, contentStep, anyAllSent, Output.truthy,
      choicesFalsy, processChoicesGo, mergeChoice, ensureAcc, lookupAcc, setAcc,
      applyMessage, Message.truthy, applyRoleSave, applyContent, contentAccum, partsAccum, strAccum, Content.truthy, hf,
      applyReasoning, applyToolCalls, applyRoleRestore, applyLogprobsAcc,
      applyLogprobsWrite, applyFinish, strAcc]

/-- The first content-fragment chunk creates the choice state and accumulates
from the empty string. -/
theorem content_step_nil (f : String) :
    merge_single_response (contentChunk (.str f)) [] 1 = .ok (contentStep f) := by
  have h := content_step f ""
  rw [String.empty_append] at h
  by_cases hf : f = ""
  · subst hf
    simp [merge_single_response, contentChunk, contentStep, anyAllSent, Output.truthy,
      choicesFalsy, processChoicesGo, mergeChoice, ensureAcc, lookupAcc, setAcc,
      applyMessage, Message.truthy, applyRoleSave, applyContent, contentAccum, partsAccum, strAccum, Content.truthy,
      applyReasoning, applyToolCalls, applyRoleRestore, applyLogprobsAcc,
      applyLogprobsWrite, applyFinish, strAcc, initAcc]
  · simp [merge_single_response, contentChunk, contentStep, anyAllSent, Output.truthy,
      choicesFalsy, processChoicesGo, mergeChoice, ensureAcc, lookupAcc, setAcc,
      applyMessage, Message.truthy, applyRoleSave, applyContent, contentAccum, partsAccum, strAccum, Content.truthy, hf,
      applyReasoning, applyToolCalls, applyRoleRestore, applyLogprobsAcc,
      applyLogprobsWrite, applyFinish, strAcc, initAcc]

/-- One text-mode chunk appends the fragment to choice 0's accumulated string
and emits the full concatenation as `output.text`. -/
theorem text_step (ch : Option (List Choice)) (hch : ch = none ∨ ch = some [])
    (f a : String) :
    merge_single_response (textChunk ch f) [(0, strAcc a)] 1 =
      .ok (textStep ch (a ++ f)) := by
  have hcf : choicesFalsy ch = true := by rcases hch with h | h <;> simp [h, choicesFalsy]
  by_cases hf : f = ""
  · subst hf
    simp [merge_single_response, textChunk, textStep, anyAllSent, Output.truthy, hcf,
      textAccum, Content.truthy, contentAppendPy, lookupAcc, setAcc, ensureAcc,
      strAcc, String.append_empty]
  · simp [merge_single_response, textChunk, textStep, anyAllSent, Output.truthy, hcf,
      textAccum, Content.truthy, contentAppendPy, lookupAcc, setAcc, ensureAcc,
      strAcc, hf]

/-- The first text-mode chunk creates choice 0's state and accumulates from
the empty string. -/
theorem text_step_nil (ch : Option (List Choice)) (hch : ch = none ∨ ch = some [])
    (f : String) :
    merge_single_response (textChunk ch f) [] 1 = .ok (textStep ch f) := by
  have hcf : choicesFalsy ch = true := by rcases hch with h | h <;> simp [h, choicesFalsy]
  by_cases hf : f = ""
  · subst hf
    simp [merge_single_response, textChunk, textStep, anyAllSent, Output.truthy, hcf,
      textAccum, Content.truthy, contentAppendPy, lookupAcc, setAcc, ensureAcc,
      strAcc, initAcc]
  · simp [merge_single_response, textChunk, textStep, anyAllSent, Output.truthy, hcf,
      textAccum, Content.truthy, contentAppendPy, lookupAcc, setAcc, ensureAcc,
      strAcc, initAcc, hf, String.empty_append]

/-- Iterating any fragment family whose single step accumulates by string
concatenation produces the expected trace. -/
theorem trace_by (mk : String → Response) (B : String → MergeResult)
    (hstep : ∀ f a, merge_single_response (mk f) [(0, strAcc a)] 1 = .ok (B (a ++ f)))
    (hacc : ∀ t, (B t).acc = [(0, strAcc t)]) :
    ∀ (fs : List String) (a : String),
      mergeTrace 1 (fs.map mk) [(0, strAcc a)] = .ok (traceFromBy B a fs) := by
  intro fs
  induction fs with
  | nil => intro a; simp [mergeTrace, traceFromBy]
  | cons f rest ih =>
      intro a
      simp only [List.map_cons, mergeTrace, hstep f a, hacc, ih (a ++ f), traceFromBy]

/-- Same, starting from an empty accumulated map. -/
theorem trace_by_nil (mk : String → Response) (B : String → MergeResult)
    (hstep : ∀ f a, merge_single_response (mk f) [(0, strAcc a)] 1 = .ok (B (a ++ f)))
    (hstep0 : ∀ f, merge_single_response (mk f) [] 1 = .ok (B f))
    (hacc : ∀ t, (B t).acc = [(0, strAcc t)]) (fs : List String) :
    mergeTrace 1 (fs.map mk) [] = .ok (traceFromBy B "" fs) := by
  cases fs with
  | nil => simp [mergeTrace, traceFromBy]
  | cons f rest =>
      have h2 := trace_by mk B hstep hacc rest f
      simp only [List.map_cons, mergeTrace, hstep0 f, hacc, h2, traceFromBy,
        String.empty_append]

/-- Position i of the expected trace carries the concatenation of the first
i+1 fragments. -/
theorem traceFromBy_get (B : String → MergeResult) :
    ∀ (fs : List String) (a : String) (i : Nat), i < fs.length →
      (traceFromBy B a fs)[i]? = some (B (a ++ concatAll (fs.take (i + 1)))) := by
  intro fs
  induction fs with
  | nil => intro a i h; simp at h
  | cons f rest ih =>
      intro a i h
      cases i with
      | zero =>
          simp [traceFromBy, List.take, concatAll_cons,
            show concatAll [] = "" from rfl, String.append_empty]
      | succ j =>
          have hj : j < rest.length := by simpa using h
          simp only [traceFromBy, List.getElem?_cons_succ, List.take, concatAll_cons]
          rw [ih (a ++ f) j hj, String.append_assoc]

/-! ### Claim theorems -/

/-- C2. Idempotent suppression: with n greater than 1, whenever some
accumulated choice entry already has `all_choices_sent = true`, the call
returns `false` and leaves both the partial response and the accumulated data
exactly as they were. -/
theorem C2_idempotent_suppression (resp : Response) (acc : AccData) (n : Int)
    (i : Int) (d : AccChoice) (hn : n > 1) (hmem : (i, d) ∈ acc)
    (hsent : d.all_choices_sent = true) :
    merge_single_response resp acc n = .ok ⟨false, resp, acc⟩ := by
  have hne : acc ≠ [] := by intro h; subst h; cases hmem
  have hany : anyAllSent acc = true := by
    simp only [anyAllSent, List.any_eq_true]
    exact ⟨(i, d), hmem, hsent⟩
  unfold merge_single_response
  rw [if_pos ⟨hn, hne, hany⟩]

/-- C2 witness: a concrete suppressed call. -/
theorem C2_idempotent_suppression_witness :
    merge_single_response (frChunk (some "stop"))
      [(0, { initAcc with all_choices_sent := true })] 2 =
      .ok ⟨false, frChunk (some "stop"), [(0, { initAcc with all_choices_sent := true })]⟩ :=
  C2_idempotent_suppression _ _ 2 0 { initAcc with all_choices_sent := true }
    (by decide) (by simp) rfl

/-- C8. The claim says malformed fragments (for example a content-part list
element that is not a mapping) are skipped and the function never raises.
The code violates this: the write-back at line 112 assigns
`elem['text'] = ...` on the non-mapping element that line 105 deliberately
skipped, raising `TypeError`; the spec's never-raise policy is clearly the
intent (line 105's isinstance guard and the try/except at lines 191-206), so
this is a code bug.  This theorem evaluates the embedded code at the failing
input. -/
theorem C8_totality_failing_input :
    merge_single_response (contentChunk (.parts [Part.nonDict "oops"])) [] 1 =
      .error "TypeError: item assignment on non-mapping part" := by
  decide

/-- C5 counterexample: a stream whose first non-empty content fragment is an
array of one part is collapsed to a plain string by a later string fragment;
after the second chunk the accumulated content is the string "B", not an
array, and the accumulated part text "A" is discarded. -/
theorem C5_counterexample :
    ((mergeTrace 1 [contentChunk (.parts [Part.obj (some "A") []]),
        contentChunk (.str "B")] []).map fun tr =>
      tr.map fun r => (r.emit, (lookupAcc r.acc 0).map fun d => d.content)) =
      .ok [(true, some (.parts [Part.obj (some "A") []])), (true, some (.str "B"))] ∧
    Content.isArr (.str "B") = false := by
  exact ⟨by decide, rfl⟩

/-- C4 counterexample: the recorded finish_reason is not set at most once; a
second chunk carrying the different real finish_reason "length" overwrites the
recorded "stop". -/
theorem C4_counterexample :
    ((mergeTrace 2 [frChunk (some "stop"), frChunk (some "length")] []).map fun tr =>
      tr.map fun r => (lookupAcc r.acc 0).map fun d => d.finish_reason) =
      .ok [some (some "stop"), some (some "length")] ∧
    ("length" : String) ≠ "stop" := by
  exact ⟨by decide, by decide⟩

/-- C4 (amended). Sticky finish_reason, weakened to never-cleared: once a
non-null finish_reason is recorded for a choice, every later successful call
keeps some recorded value (it is never cleared), and a later chunk whose
choices all lack a real (non-empty, non-"null") finish_reason — null, empty,
absent or the "null" sentinel — leaves the recorded value unchanged.  (The
original claim fails: a later chunk carrying a different real finish_reason
overwrites the recorded value, see the counterexample.) -/
theorem C4_sticky_amended (resp : Response) (acc : AccData) (n : Int) (r : MergeResult)
    (h : merge_single_response resp acc n = .ok r) (i : Int) (d : AccChoice) (v : String)
    (hl : lookupAcc acc i = some d) (hv : d.finish_reason = some v) :
    ∃ d', lookupAcc r.acc i = some d' ∧ d'.finish_reason.isSome = true ∧
      ((∀ o cs c, resp.output = some o → o.choices = some cs → c ∈ cs →
          hasRealFr c = false) →
        d'.finish_reason = some v) := by
  unfold merge_single_response at h
  split at h
  · simp only [Except.ok.injEq] at h; subst h
    exact ⟨d, hl, by simp [hv], fun _ => hv⟩
  · split at h
    · simp only [Except.ok.injEq] at h; subst h
      exact ⟨d, hl, by simp [hv], fun _ => hv⟩
    · rename_i o heq
      split at h
      · -- text branch
        rcases htx : textAccum ((lookupAcc (ensureAcc acc 0) 0).getD initAcc) o.text with e | st'
        · simp only [htx] at h; exact Except.noConfusion h
        · simp only [htx, Except.ok.injEq] at h; subst h
          obtain ⟨x, hx⟩ := textAccum_state _ _ _ htx
          by_cases hi0 : (0 : Int) = i
          · subst hi0
            have hST : ((lookupAcc (ensureAcc acc 0) 0).getD initAcc) = d := by
              rw [lookupAcc_ensure_of_some acc 0 0 d hl]
              rfl
            rw [hST] at hx
            refine ⟨st', lookupAcc_setAcc_self _ _ _, ?_, fun _ => ?_⟩
            · rw [hx]; simp [hv]
            · rw [hx]; exact hv
          · refine ⟨d, ?_, by simp [hv], fun _ => hv⟩
            rw [lookupAcc_setAcc_ne _ _ _ _ hi0]
            exact lookupAcc_ensure_of_some _ _ _ _ hl
      · split at h
        · -- choices branch
          split at h
          · rename_i cs heq2
            split at h
            · simp only [Except.ok.injEq] at h; subst h
              exact ⟨d, hl, by simp [hv], fun _ => hv⟩
            · rcases hp : processChoicesGo n cs acc 0 with e | ⟨cs', acc'⟩
              · simp only [hp] at h; exact Except.noConfusion h
              · simp only [hp] at h
                obtain ⟨d', hd', hcase⟩ := processChoices_fr n cs acc 0 cs' acc' hp i d hl
                have hfr_some : d'.finish_reason.isSome = true := by
                  rcases hcase with hc | ⟨c, hcmem, hreal, hfr⟩
                  · rw [hc, hv]; rfl
                  · rw [hfr]; exact hasRealFr_isSome c hreal
                have hcond : (∀ o2 cs2 c2, resp.output = some o2 → o2.choices = some cs2 →
                    c2 ∈ cs2 → hasRealFr c2 = false) → d'.finish_reason = some v := by
                  intro hno
                  rcases hcase with hc | ⟨c, hcmem, hreal, hfr⟩
                  · rw [hc, hv]
                  · have hfalse := hno o cs c heq heq2 hcmem
                    rw [hfalse] at hreal
                    exact Bool.noConfusion hreal
                split at h
                · split at h
                  · simp only [Except.ok.injEq] at h; subst h
                    exact ⟨d', hd', hfr_some, hcond⟩
                  · simp only [Except.ok.injEq] at h; subst h
                    refine ⟨{ d' with all_choices_sent := true }, ?_, hfr_some, hcond⟩
                    rw [lookupAcc_markAllSent, hd']
                    rfl
                · simp only [Except.ok.injEq] at h; subst h
                  exact ⟨d', hd', hfr_some, hcond⟩
          · simp only [Except.ok.injEq] at h; subst h
            exact ⟨d, hl, by simp [hv], fun _ => hv⟩
        · simp only [Except.ok.injEq] at h; subst h
          exact ⟨d, hl, by simp [hv], fun _ => hv⟩

/-- C4 witness: an entry with recorded finish_reason "stop" survives a chunk
whose only choice carries the "null" sentinel. -/
theorem C4_sticky_amended_witness :
    lookupAcc [((0 : Int), (⟨.str "", "", [], [], true, some "stop", false, none⟩ : AccChoice))] 0 =
        some ⟨.str "", "", [], [], true, some "stop", false, none⟩ ∧
    (⟨.str "", "", [], [], true, some "stop", false, none⟩ : AccChoice).finish_reason = some "stop" ∧
    ∃ d', lookupAcc (⟨true,
        ⟨some ⟨none, some [⟨some 0, some ⟨some "assistant", some (.str ""), none, none⟩,
          some "null", none⟩]⟩, none⟩,
        [(0, ⟨.str "", "", [], [], true, some "stop", false, none⟩)]⟩ : MergeResult).acc 0 =
          some d' ∧ d'.finish_reason.isSome = true ∧
      ((∀ o cs c, (frChunk (some "null")).output = some o → o.choices = some cs → c ∈ cs →
          hasRealFr c = false) →
        d'.finish_reason = some "stop") :=
  ⟨rfl, rfl,
    C4_sticky_amended (frChunk (some "null"))
      [(0, ⟨.str "", "", [], [], true, some "stop", false, none⟩)] 2 _ (by decide) 0
      ⟨.str "", "", [], [], true, some "stop", false, none⟩ "stop" rfl rfl⟩

/-- C5 (amended). Shape reset, not shape stability: when the accumulated
content of a choice is an array of parts, a later chunk carrying a non-empty
string content fragment collapses the accumulated value to a plain string —
the accumulated array is discarded (reset to the empty string, lines 116-117)
and both the accumulated and the emitted content become exactly the new
fragment. -/
theorem C5_shape_reset (d : AccChoice) (l : List Part) (s : String)
    (hd : d.content = .parts l) (hs : s ≠ "") :
    ∃ r, merge_single_response (contentChunk (.str s)) [(0, d)] 1 = .ok r ∧
      r.emit = true ∧
      ((lookupAcc r.acc 0).map fun e => e.content) = some (.str s) ∧
      firstChoiceContent r.resp = some (some (.str s)) := by
  have hmain : merge_single_response (contentChunk (.str s)) [(0, d)] 1 =
      .ok ⟨true,
        ⟨some ⟨none, some [⟨none,
          some (applyRoleRestore { d with content := Content.str s } ⟨none, some (.str s), none, none⟩),
          none, none⟩]⟩, none⟩,
        [(0, { d with content := Content.str s })]⟩ := by
    simp [merge_single_response, contentChunk, anyAllSent, Output.truthy, choicesFalsy,
      processChoicesGo, mergeChoice, ensureAcc, lookupAcc, setAcc, applyMessage,
      Message.truthy, applyRoleSave, applyContent, contentAccum, partsAccum, strAccum, Content.truthy, hd, hs,
      applyReasoning, applyToolCalls, applyLogprobsAcc, applyLogprobsWrite, applyFinish]
  refine ⟨_, hmain, rfl, by simp [lookupAcc], ?_⟩
  simp [firstChoiceContent, applyRoleRestore_content]

/-- C5 witness: a concrete accumulated array collapsed by the fragment "B". -/
theorem C5_shape_reset_witness :
    ({ initAcc with content := Content.parts [Part.obj (some "A") []] } : AccChoice).content =
        .parts [Part.obj (some "A") []] ∧
      ("B" : String) ≠ "" ∧
      ∃ r, merge_single_response (contentChunk (.str "B"))
          [(0, { initAcc with content := Content.parts [Part.obj (some "A") []] })] 1 = .ok r ∧
        r.emit = true ∧
        ((lookupAcc r.acc 0).map fun e => e.content) = some (.str "B") ∧
        firstChoiceContent r.resp = some (some (.str "B")) :=
  ⟨rfl, by decide,
    C5_shape_reset { initAcc with content := Content.parts [Part.obj (some "A") []] }
      [Part.obj (some "A") []] "B" rfl (by decide)⟩

/-- C1. Multi-choice finish gating with n = 2: on a chunk whose choice 0
carries a real finish_reason, after per-choice processing (hypothesis hp),
(a) while fewer than 2 accumulated choices are marked finished — in
particular when only one is — the call returns true with every outgoing
choice's finish_reason masked so that no real finish_reason is exposed, and
the accumulated data is left as processed; (b) on the chunk after which all
(at least 2) accumulated choices are finished, the outgoing choices list is
replaced wholesale by one synthesized entry per accumulated choice index —
each carrying that choice's sticky finish_reason and its message built from
the accumulated state — and every entry is marked all_choices_sent.  Since
(a) covers every emission before that point, no real finish_reason is exposed
in any earlier emission. -/
theorem C1_finish_gating (resp : Response) (o : Output) (cs cs' : List Choice)
    (acc acc' : AccData) (c0 : Choice)
    (hout : resp.output = some o) (hcs : o.choices = some cs) (hne : cs ≠ [])
    (hsup : anyAllSent acc = false)
    (hp : processChoicesGo 2 cs acc 0 = .ok (cs', acc'))
    (_hc0 : cs.head? = some c0) (_hreal : hasRealFr c0 = true) :
    ((countFinished acc' : Int) < 2 →
      merge_single_response resp acc 2 =
          .ok ⟨true, ⟨some ⟨o.text, some (cs'.map maskChoiceFr)⟩, resp.usage⟩, acc'⟩ ∧
        ∀ c ∈ cs'.map maskChoiceFr, hasRealFr c = false) ∧
    (2 ≤ (countFinished acc' : Int) →
      merge_single_response resp acc 2 =
          .ok ⟨true,
            ⟨some ⟨o.text, some ((markAllSent acc').map fun p => synthFinal p.1 p.2)⟩, resp.usage⟩,
            markAllSent acc'⟩ ∧
        ∀ p ∈ markAllSent acc', (synthFinal p.1 p.2).finish_reason = p.2.finish_reason) := by
  have h1 : ¬((2 : Int) > 1 ∧ acc ≠ [] ∧ anyAllSent acc = true) := by simp [hsup]
  have h2 : ¬(o.truthy = true ∧ o.text.isSome = true ∧ choicesFalsy o.choices = true) := by
    simp [choicesFalsy, hcs, hne]
  have h3 : o.truthy = true ∧ ¬choicesFalsy o.choices = true := by
    constructor
    · simp [Output.truthy, hcs]
    · simp [choicesFalsy, hcs, hne]
  constructor
  · intro hlt
    refine ⟨?_, ?_⟩
    · unfold merge_single_response
      rw [if_neg h1]
      simp only [hout]
      rw [if_neg h2, if_pos h3]
      simp only [hcs]
      rw [if_neg hne]
      simp only [hp]
      rw [if_pos (by decide : (2 : Int) > 1), if_pos hlt]
    · intro c hc
      obtain ⟨c1, _, rfl⟩ := List.mem_map.mp hc
      exact maskChoiceFr_no_real c1
  · intro hge
    refine ⟨?_, fun p _ => rfl⟩
    unfold merge_single_response
    rw [if_neg h1]
    simp only [hout]
    rw [if_neg h2, if_pos h3]
    simp only [hcs]
    rw [if_neg hne]
    simp only [hp]
    rw [if_pos (by decide : (2 : Int) > 1), if_neg (not_lt.mpr hge)]

/-- C1 witness: a two-choice stream's first chunk, in which choice 0 finishes
with "stop" while choice 1 has not arrived: one accumulated choice is
finished, the emission masks the finish_reason. -/
theorem C1_finish_gating_witness :
    processChoicesGo 2 [⟨some 0, none, some "stop", none⟩] [] 0 =
        .ok ([⟨some 0, some ⟨some "assistant", some (.str ""), none, none⟩, some "stop", none⟩],
          [(0, ⟨.str "", "", [], [], true, some "stop", false, none⟩)]) ∧
    hasRealFr ⟨some 0, none, some "stop", none⟩ = true ∧
    (((countFinished [((0 : Int), (⟨.str "", "", [], [], true, some "stop", false, none⟩ : AccChoice))] : Int) < 2 →
        merge_single_response (frChunk (some "stop")) [] 2 =
            .ok ⟨true,
              ⟨some ⟨none, some ([⟨some 0, some ⟨some "assistant", some (.str ""), none, none⟩,
                some "stop", none⟩].map maskChoiceFr)⟩, none⟩,
              [(0, ⟨.str "", "", [], [], true, some "stop", false, none⟩)]⟩ ∧
          ∀ c ∈ [⟨some 0, some ⟨some "assistant", some (.str ""), none, none⟩,
              some "stop", none⟩].map maskChoiceFr, hasRealFr c = false) ∧
      (2 ≤ (countFinished [((0 : Int), (⟨.str "", "", [], [], true, some "stop", false, none⟩ : AccChoice))] : Int) →
        merge_single_response (frChunk (some "stop")) [] 2 =
            .ok ⟨true,
              ⟨some ⟨none, some ((markAllSent [(0, ⟨.str "", "", [], [], true, some "stop", false, none⟩)]).map
                fun p => synthFinal p.1 p.2)⟩, none⟩,
              markAllSent [(0, ⟨.str "", "", [], [], true, some "stop", false, none⟩)]⟩ ∧
          ∀ p ∈ markAllSent [(0, ⟨.str "", "", [], [], true, some "stop", false, none⟩)],
            (synthFinal p.1 p.2).finish_reason = p.2.finish_reason)) :=
  ⟨by decide, by decide,
    C1_finish_gating (frChunk (some "stop")) ⟨none, some [⟨some 0, none, some "stop", none⟩]⟩
      [⟨some 0, none, some "stop", none⟩]
      [⟨some 0, some ⟨some "assistant", some (.str ""), none, none⟩, some "stop", none⟩]
      [] [(0, ⟨.str "", "", [], [], true, some "stop", false, none⟩)]
      ⟨some 0, none, some "stop", none⟩
      rfl rfl (by decide) rfl (by decide) rfl (by decide)⟩

/-- C3. Monotonic string content: for every sequence of string content
fragments f1..fk for a choice, after the accumulator processes chunk i the
outgoing choice's message.content and the accumulated state's content both
equal the concatenation f1 ++ ... ++ f(i+1) (0-based i); empty fragments
contribute nothing, since concatenation with the empty string is identity. -/
theorem C3_monotonic_content (fs : List String) (i : Nat) (h : i < fs.length) :
    ∃ tr, mergeTrace 1 (fs.map fun f => contentChunk (.str f)) [] = .ok tr ∧
      tr[i]? = some (contentStep (concatAll (fs.take (i + 1)))) := by
  refine ⟨traceFromBy contentStep "" fs,
    trace_by_nil _ contentStep content_step content_step_nil (fun t => rfl) fs, ?_⟩
  rw [traceFromBy_get contentStep fs "" i h, String.empty_append]

/-- C3 witness: fragments "Hel", "", "lo"; after the third chunk the emitted
and accumulated content is "Hello". -/
theorem C3_monotonic_content_witness :
    (2 : Nat) < (["Hel", "", "lo"] : List String).length ∧
    ∃ tr, mergeTrace 1 ((["Hel", "", "lo"] : List String).map fun f => contentChunk (.str f)) [] = .ok tr ∧
      tr[2]? = some (contentStep (concatAll ((["Hel", "", "lo"] : List String).take 3))) :=
  ⟨by decide, C3_monotonic_content ["Hel", "", "lo"] 2 (by decide)⟩

/-- C7. Undifferentiated-text mode: a stream of chunks carrying a scalar
output.text fragment and a null or empty choices list accumulates on choice
index 0; after chunk i the call returns true and the outgoing output.text is
the full concatenation of the first i+1 fragments (choices left as they
arrived), with the same string recorded in the accumulated state. -/
theorem C7_text_mode (ch : Option (List Choice)) (hch : ch = none ∨ ch = some [])
    (fs : List String) (i : Nat) (h : i < fs.length) :
    ∃ tr, mergeTrace 1 (fs.map (textChunk ch)) [] = .ok tr ∧
      tr[i]? = some (textStep ch (concatAll (fs.take (i + 1)))) := by
  refine ⟨traceFromBy (textStep ch) "" fs,
    trace_by_nil _ (textStep ch) (text_step ch hch) (text_step_nil ch hch) (fun t => rfl) fs, ?_⟩
  rw [traceFromBy_get (textStep ch) fs "" i h, String.empty_append]

/-- C7 witness: fragments "Hel" then "lo" yield output.text "Hello". -/
theorem C7_text_mode_witness :
    ((none : Option (List Choice)) = none ∨ (none : Option (List Choice)) = some []) ∧
    (1 : Nat) < (["Hel", "lo"] : List String).length ∧
    ∃ tr, mergeTrace 1 ((["Hel", "lo"] : List String).map (textChunk none)) [] = .ok tr ∧
      tr[1]? = some (textStep none (concatAll ((["Hel", "lo"] : List String).take 2))) :=
  ⟨Or.inl rfl, by decide, C7_text_mode none (Or.inl rfl) ["Hel", "lo"] 1 (by decide)⟩

/-- C6. Tool-call argument streaming: two successive chunks whose tool_calls
carry a descriptor with the same index accumulate their function.arguments
fragments by concatenation (a1 then a2 gives a1 ++ a2), likewise
function.name; any other present non-empty field — both top-level (kt) and
inside function (k) — is overwritten last-write-wins.  The accumulated
descriptor list and the second chunk's outgoing message.tool_calls both carry
the merged descriptor. -/
theorem C6_tool_call_streaming (i : Int) (n1 a1 n2 a2 k v1 kt w1 v2 w2 : String)
    (hv2 : v2 ≠ "") (hw2 : w2 ≠ "") :
    ∃ r1, merge_single_response (toolChunk (mkTc i n1 a1 k v1 kt w1)) [] 1 = .ok r1 ∧
      r1.emit = true ∧
      ∃ r2, merge_single_response (toolChunk (mkTc i n2 a2 k v2 kt w2)) r1.acc 1 = .ok r2 ∧
        r2.emit = true ∧
        ((lookupAcc r2.acc 0).map fun d => d.tool_calls) =
          some [mkTc i (n1 ++ n2) (a1 ++ a2) k v2 kt w2] ∧
        firstChoiceToolCalls r2.resp = some (some [mkTc i (n1 ++ n2) (a1 ++ a2) k v2 kt w2]) := by
  have h1 : merge_single_response (toolChunk (mkTc i n1 a1 k v1 kt w1)) [] 1 =
      .ok ⟨true,
        ⟨some ⟨none, some [⟨none, some ⟨none, none, none, some [mkTc i n1 a1 k v1 kt w1]⟩,
          none, none⟩]⟩, none⟩,
        [(0, { initAcc with tool_calls := [mkTc i n1 a1 k v1 kt w1] })]⟩ := by
    simp [merge_single_response, toolChunk, anyAllSent, Output.truthy, choicesFalsy,
      processChoicesGo, mergeChoice, ensureAcc, lookupAcc, setAcc, applyMessage,
      Message.truthy, applyRoleSave, applyContent, applyReasoning, applyToolCalls,
      mergeToolCall, mkTc, applyRoleRestore, applyLogprobsAcc, applyLogprobsWrite,
      applyFinish, initAcc]
  have h2 : merge_single_response (toolChunk (mkTc i n2 a2 k v2 kt w2))
      [(0, { initAcc with tool_calls := [mkTc i n1 a1 k v1 kt w1] })] 1 =
      .ok ⟨true,
        ⟨some ⟨none, some [⟨none, some ⟨none, none, none,
          some [mkTc i (n1 ++ n2) (a1 ++ a2) k v2 kt w2]⟩, none, none⟩]⟩, none⟩,
        [(0, { initAcc with tool_calls := [mkTc i (n1 ++ n2) (a1 ++ a2) k v2 kt w2] })]⟩ := by
    simp [merge_single_response, toolChunk, anyAllSent, Output.truthy, choicesFalsy,
      processChoicesGo, mergeChoice, ensureAcc, lookupAcc, setAcc, applyMessage,
      Message.truthy, applyRoleSave, applyContent, applyReasoning, applyToolCalls,
      mergeToolCall, mkTc, FunctObj.truthy, updateKeys, setKey, hv2, hw2,
      applyRoleRestore, applyLogprobsAcc, applyLogprobsWrite, applyFinish, initAcc]
  exact ⟨_, h1, rfl, _, h2, rfl, by simp [lookupAcc], by simp [firstChoiceToolCalls]⟩

/-- C6 witness at concrete fragments. -/
theorem C6_tool_call_streaming_witness :
    ("type2" : String) ≠ "" ∧ ("id2" : String) ≠ "" ∧
    ∃ r1, merge_single_response
        (toolChunk (mkTc 0 "get" "lat=1," "type" "type1" "id" "id1")) [] 1 = .ok r1 ∧
      r1.emit = true ∧
      ∃ r2, merge_single_response
          (toolChunk (mkTc 0 "_weather" "lon=2" "type" "type2" "id" "id2")) r1.acc 1 = .ok r2 ∧
        r2.emit = true ∧
        ((lookupAcc r2.acc 0).map fun d => d.tool_calls) =
          some [mkTc 0 ("get" ++ "_weather") ("lat=1," ++ "lon=2") "type" "type2" "id" "id2"] ∧
        firstChoiceToolCalls r2.resp =
          some (some [mkTc 0 ("get" ++ "_weather") ("lat=1," ++ "lon=2") "type" "type2" "id" "id2"]) :=
  ⟨by decide, by decide,
    C6_tool_call_streaming 0 "get" "lat=1," "_weather" "lon=2" "type" "type1" "id" "id1" "type2" "id2"
      (by decide) (by decide)⟩

/-- C9. Usage frame condition: every successful call leaves the partial
response's usage section exactly as it arrived, in every branch (suppression,
text mode, per-choice processing, gating, pass-through). -/
theorem C9_usage_frame (resp : Response) (acc : AccData) (n : Int) (r : MergeResult)
    (h : merge_single_response resp acc n = .ok r) : r.resp.usage = resp.usage := by
  unfold merge_single_response at h
  split at h
  · simp only [Except.ok.injEq] at h; subst h; rfl
  · split at h
    · simp only [Except.ok.injEq] at h; subst h; rfl
    · rename_i o heq
      split at h
      · -- text branch
        rcases htx : textAccum ((lookupAcc (ensureAcc acc 0) 0).getD initAcc) o.text with e | st'
        · simp only [htx] at h; exact Except.noConfusion h
        · simp only [htx, Except.ok.injEq] at h; subst h; rfl
      · split at h
        · -- choices branch
          split at h
          · rename_i cs heq2
            split at h
            · simp only [Except.ok.injEq] at h; subst h; rfl
            · rcases hp : processChoicesGo n cs acc 0 with e | ⟨cs', acc'⟩
              · simp only [hp] at h; exact Except.noConfusion h
              · simp only [hp] at h
                split at h
                · split at h
                  · simp only [Except.ok.injEq] at h; subst h; rfl
                  · simp only [Except.ok.injEq] at h; subst h; rfl
                · simp only [Except.ok.injEq] at h; subst h; rfl
          · simp only [Except.ok.injEq] at h; subst h; rfl
        · simp only [Except.ok.injEq] at h; subst h; rfl

/-- C9 witness at a concrete input carrying a usage section. -/
theorem C9_usage_frame_witness :
    merge_single_response { output := none, usage := some "tokens" } [] 1 =
        .ok ⟨true, { output := none, usage := some "tokens" }, []⟩ ∧
      (⟨true, { output := none, usage := some "tokens" }, []⟩ : MergeResult).resp.usage =
        ({ output := none, usage := some "tokens" } : Response).usage :=
  ⟨rfl, C9_usage_frame _ [] 1 _ rfl⟩

/-- C10. The null sentinel is the literal string "null": with n greater
than 1, an incoming finish_reason equal to "null" is not recorded as finished
and does not count toward the n finished choices (first conjunct: the
accumulated entry stays unfinished with no recorded finish_reason, and the
chunk is emitted with the sentinel untouched); and masking an unfinished real
finish_reason writes the string "null" into the outgoing choice, not the
absent value (second conjunct). -/
theorem C10_null_sentinel (fr : String) (h1 : fr ≠ "") (h2 : fr ≠ "null") :
    ((merge_single_response (frChunk (some "null")) [] 2).map fun r =>
        (r.emit, (lookupAcc r.acc 0).map fun d => (d.finished, d.finish_reason),
          firstChoiceFr r.resp)) =
      .ok (true, some (false, none), some (some "null")) ∧
    ((merge_single_response (frChunk (some fr)) [] 2).map fun r =>
        (r.emit, (lookupAcc r.acc 0).map fun d => (d.finished, d.finish_reason),
          firstChoiceFr r.resp)) =
      .ok (true, some (true, some fr), some (some "null")) := by
  constructor
  · decide
  · have hreal : hasRealFr ⟨some 0, none, some fr, none⟩ = true := by
      simp [hasRealFr, h1, h2]
    simp [merge_single_response, frChunk, anyAllSent, Output.truthy, choicesFalsy,
      processChoicesGo, mergeChoice, ensureAcc, lookupAcc, setAcc, initAcc,
      applyMessage, synthMessage, roleOr, applyLogprobsAcc, applyLogprobsWrite,
      applyFinish, hreal, countFinished, maskChoiceFr, firstChoiceFr, hasRealFr, h1, h2,
      Except.map]

/-- C10 witness at the real finish_reason "stop". -/
theorem C10_null_sentinel_witness :
    ((merge_single_response (frChunk (some "null")) [] 2).map fun r =>
        (r.emit, (lookupAcc r.acc 0).map fun d => (d.finished, d.finish_reason),
          firstChoiceFr r.resp)) =
      .ok (true, some (false, none), some (some "null")) ∧
    ((merge_single_response (frChunk (some "stop")) [] 2).map fun r =>
        (r.emit, (lookupAcc r.acc 0).map fun d => (d.finished, d.finish_reason),
          firstChoiceFr r.resp)) =
      .ok (true, some (true, some "stop"), some (some "null")) :=
  C10_null_sentinel "stop" (by decide) (by decide)

end MessageUtils
